import Mathlib

/-!
Verification development for the mostro-core repository.

The development shallowly embeds the parts of the source that carry the
invariants under scrutiny:

* `src/crypto.rs` — the field codec (`CryptoUtils::store_encrypted`,
  `CryptoUtils::decrypt_data`, `CryptoUtils::derive_key`,
  `CryptoUtils::encrypt`, `CryptoUtils::decrypt`) and the bounded key cache
  (`SimpleCache`), including its `Zeroize`/`Drop` implementations.
* `src/order.rs` — the older duplicated codec (`decrypt_data`,
  `store_encrypted`) with its own Argon2 parameter choice.
* `src/message.rs` — the message envelope (`MessageKind`, `Message`,
  `Action`, `Payload`), its validation contract `verify`, the payload
  accessor `get_rating`, and the signing helpers `sign` /
  `verify_signature`.

Rust machine integers are modelled as `Nat`/`Int`; byte strings as
`List (Fin 256)`; fallible code as `Except`/`Option`; a Rust panic as the
`none` case of an `Option`-valued result.  External library primitives
(Argon2, ChaCha20-Poly1305, blake3, SHA-256, Schnorr over secp256k1) are
not part of the repository; they are modelled by small executable
functions that expose exactly the interface contract the source relies on
(determinism, output lengths, AEAD round-trip and tag checking, signature
round-trip in the symbolic model).  Randomness (salt and nonce generation)
is made an explicit argument.
-/

namespace Mostro

/-- A Rust `u8`. -/
abbrev Byte := Fin 256

/-- A Rust byte string (`Vec<u8>` / `&[u8]`); a Rust `String` is modelled
by the list of its UTF-8 bytes. -/
abbrev Bytes := List Byte

/-- Rust's `slice::split_at(mid)`: defined only when `mid ≤ len`;
out-of-range `mid` panics, modelled by `none`. -/
def splitAt? (n : Nat) (l : Bytes) : Option (Bytes × Bytes) :=
  if n ≤ l.length then some (l.take n, l.drop n) else none

/-- UTF-8 validity of a byte string, as checked by Rust's
`String::from_utf8` (RFC 3629 table). -/
def utf8Valid : Bytes → Bool
  | [] => true
  | b :: rest =>
    if b.val < 0x80 then utf8Valid rest
    else if 0xC2 ≤ b.val ∧ b.val ≤ 0xDF then
      match rest with
      | b2 :: r =>
        if 0x80 ≤ b2.val ∧ b2.val ≤ 0xBF then utf8Valid r else false
      | [] => false
    else if 0xE0 ≤ b.val ∧ b.val ≤ 0xEF then
      match rest with
      | b2 :: b3 :: r =>
        let lo2 : Nat := if b.val = 0xE0 then 0xA0 else 0x80
        let hi2 : Nat := if b.val = 0xED then 0x9F else 0xBF
        if (lo2 ≤ b2.val ∧ b2.val ≤ hi2) ∧ (0x80 ≤ b3.val ∧ b3.val ≤ 0xBF)
        then utf8Valid r else false
      | _ => false
    else if 0xF0 ≤ b.val ∧ b.val ≤ 0xF4 then
      match rest with
      | b2 :: b3 :: b4 :: r =>
        let lo2 : Nat := if b.val = 0xF0 then 0x90 else 0x80
        let hi2 : Nat := if b.val = 0xF4 then 0x8F else 0xBF
        if (lo2 ≤ b2.val ∧ b2.val ≤ hi2) ∧ (0x80 ≤ b3.val ∧ b3.val ≤ 0xBF)
            ∧ (0x80 ≤ b4.val ∧ b4.val ≤ 0xBF)
        then utf8Valid r else false
      | _ => false
    else false

/-! ## Base64 (the `base64` crate's `STANDARD` engine, with padding) -/

/-- The `=` padding byte. -/
def padByte : Byte := ⟨61, by omega⟩

/-- The standard base64 alphabet, as a byte of the encoded text. -/
def sextetChar (s : Fin 64) : Byte :=
  if h : s.val < 26 then ⟨65 + s.val, by omega⟩
  else if h2 : s.val < 52 then ⟨71 + s.val, by omega⟩
  else if h3 : s.val < 62 then ⟨s.val - 4, by omega⟩
  else if s.val = 62 then ⟨43, by omega⟩
  else ⟨47, by omega⟩

/-- Decode one byte of base64 text back to its sextet; `none` on bytes
outside the alphabet (including the padding byte). -/
def charSextet (c : Byte) : Option (Fin 64) :=
  if h : 65 ≤ c.val ∧ c.val ≤ 90 then some ⟨c.val - 65, by omega⟩
  else if h2 : 97 ≤ c.val ∧ c.val ≤ 122 then some ⟨c.val - 71, by omega⟩
  else if h3 : 48 ≤ c.val ∧ c.val ≤ 57 then some ⟨c.val + 4, by omega⟩
  else if h4 : c.val = 43 then some ⟨62, by omega⟩
  else if h5 : c.val = 47 then some ⟨63, by omega⟩
  else none

/-- First sextet of a 3-byte group. -/
def sx1 (b1 : Byte) : Fin 64 := ⟨b1.val / 4, by have := b1.isLt; omega⟩

/-- Second sextet. -/
def sx2 (b1 b2 : Byte) : Fin 64 :=
  ⟨b1.val % 4 * 16 + b2.val / 16, by have := b1.isLt; have := b2.isLt; omega⟩

/-- Third sextet. -/
def sx3 (b2 b3 : Byte) : Fin 64 :=
  ⟨b2.val % 16 * 4 + b3.val / 64, by have := b2.isLt; have := b3.isLt; omega⟩

/-- Fourth sextet. -/
def sx4 (b3 : Byte) : Fin 64 := ⟨b3.val % 64, by have := b3.isLt; omega⟩

/-- Base64-encode a byte string (`BASE64_STANDARD.encode`). -/
def b64encode : Bytes → Bytes
  | [] => []
  | [b1] => [sextetChar (sx1 b1), sextetChar (sx2 b1 (0 : Byte)), padByte, padByte]
  | [b1, b2] =>
      [sextetChar (sx1 b1), sextetChar (sx2 b1 b2), sextetChar (sx3 b2 (0 : Byte)), padByte]
  | b1 :: b2 :: b3 :: rest =>
      sextetChar (sx1 b1) :: sextetChar (sx2 b1 b2) :: sextetChar (sx3 b2 b3)
        :: sextetChar (sx4 b3) :: b64encode rest

/-- Byte rebuilt from the first two sextets. -/
def byte1 (s1 s2 : Fin 64) : Byte :=
  ⟨s1.val * 4 + s2.val / 16, by have := s1.isLt; have := s2.isLt; omega⟩

/-- Byte rebuilt from the second and third sextets. -/
def byte2 (s2 s3 : Fin 64) : Byte :=
  ⟨s2.val % 16 * 16 + s3.val / 4, by have := s2.isLt; have := s3.isLt; omega⟩

/-- Byte rebuilt from the third and fourth sextets. -/
def byte3 (s3 s4 : Fin 64) : Byte :=
  ⟨s3.val % 4 * 64 + s4.val, by have := s3.isLt; have := s4.isLt; omega⟩

/-- Base64-decode (`BASE64_STANDARD.decode`): the length must be a
multiple of four, padding only in the last group, trailing bits must be
zero (the engine's canonical-padding check). -/
def b64decode : Bytes → Option Bytes
  | [] => some []
  | c1 :: c2 :: c3 :: c4 :: rest =>
    match charSextet c1, charSextet c2 with
    | some s1, some s2 =>
      if c3 = padByte then
        if c4 = padByte ∧ rest = [] then
          if s2.val % 16 = 0 then some [byte1 s1 s2] else none
        else none
      else
        match charSextet c3 with
        | some s3 =>
          if c4 = padByte then
            if rest = [] then
              if s3.val % 4 = 0 then some [byte1 s1 s2, byte2 s2 s3] else none
            else none
          else
            match charSextet c4 with
            | some s4 =>
              (b64decode rest).map
                (fun bs => byte1 s1 s2 :: byte2 s2 s3 :: byte3 s3 s4 :: bs)
            | none => none
        | none => none
    | _, _ => none
  | _ => none

theorem charSextet_sextetChar : ∀ s : Fin 64, charSextet (sextetChar s) = some s := by
  decide

theorem sextetChar_ne_pad : ∀ s : Fin 64, sextetChar s ≠ padByte := by
  decide

theorem byte1_sx (b1 b2 : Byte) : byte1 (sx1 b1) (sx2 b1 b2) = b1 := by
  have h1 := b1.isLt; have h2 := b2.isLt
  apply Fin.ext
  simp only [byte1, sx1, sx2]
  omega

theorem byte2_sx (b1 b2 b3 : Byte) : byte2 (sx2 b1 b2) (sx3 b2 b3) = b2 := by
  have h1 := b1.isLt; have h2 := b2.isLt; have h3 := b3.isLt
  apply Fin.ext
  simp only [byte2, sx2, sx3]
  omega

theorem byte3_sx (b2 b3 : Byte) : byte3 (sx3 b2 b3) (sx4 b3) = b3 := by
  have h2 := b2.isLt; have h3 := b3.isLt
  apply Fin.ext
  simp only [byte3, sx3, sx4]
  omega

theorem b64_roundtrip : ∀ bs : Bytes, b64decode (b64encode bs) = some bs
  | [] => rfl
  | [b1] => by
    have h := b1.isLt
    show b64decode [sextetChar (sx1 b1), sextetChar (sx2 b1 (0 : Byte)),
      padByte, padByte] = some [b1]
    have hmod : (sx2 b1 (0 : Byte)).val % 16 = 0 := by simp [sx2]
    simp [b64decode, charSextet_sextetChar, hmod, byte1_sx]
  | [b1, b2] => by
    have h1 := b1.isLt; have h2 := b2.isLt
    show b64decode [sextetChar (sx1 b1), sextetChar (sx2 b1 b2),
      sextetChar (sx3 b2 (0 : Byte)), padByte] = some [b1, b2]
    have hmod : (sx3 b2 (0 : Byte)).val % 4 = 0 := by simp [sx3]
    simp [b64decode, charSextet_sextetChar, sextetChar_ne_pad, hmod,
      byte1_sx, byte2_sx]
  | b1 :: b2 :: b3 :: rest => by
    have ih := b64_roundtrip rest
    show b64decode (sextetChar (sx1 b1) :: sextetChar (sx2 b1 b2)
      :: sextetChar (sx3 b2 b3) :: sextetChar (sx4 b3) :: b64encode rest)
      = some (b1 :: b2 :: b3 :: rest)
    simp [b64decode, charSextet_sextetChar, sextetChar_ne_pad, ih,
      byte1_sx, byte2_sx, byte3_sx]

/-! ## Errors (`src/error.rs`)

`ServiceError` as constructed by the embedded functions.  The enum in
`src/error.rs` predates the crypto module: the `EncryptionError`,
`DecryptionError` and `InvalidPayload` variants constructed by
`src/crypto.rs`, `src/order.rs` and `src/message.rs` are included here with
the `String` payloads those call sites pass. -/

inductive ServiceError where
  | NostrError (e : String)
  | InvalidOrderId
  | InvalidPubkey
  | InvalidOrderStatus
  | InvalidOrderKind
  | InvalidRating
  | InvalidRatingValue
  | MessageSerializationError
  | InvalidPayload
  | EncryptionError (msg : String)
  | DecryptionError (msg : String)
  deriving DecidableEq, Repr

/-! ## Model of the external `argon2` crate -/

/-- `argon2::Params`: the validated parameter record. -/
structure Argon2Params where
  mCost : Nat
  tCost : Nat
  pCost : Nat
  outputLen : Nat
  deriving DecidableEq, Repr

/-- Constants of the `argon2` crate (`Params::DEFAULT_M_COST` is 19456 KiB,
`Params::DEFAULT_T_COST` is 2, `Params::MIN_T_COST` is 1,
`Params::DEFAULT_P_COST` is 1, `Params::DEFAULT_OUTPUT_LEN` is 32). -/
def DEFAULT_M_COST : Nat := 19456

def DEFAULT_T_COST : Nat := 2

def MIN_T_COST : Nat := 1

def DEFAULT_P_COST : Nat := 1

def DEFAULT_OUTPUT_LEN : Nat := 32

/-- `argon2::Params::new`: validates the requested costs (the crate's
admissible windows) and produces the parameter record. -/
def Params.new (m t p : Nat) (out : Option Nat) : Option Argon2Params :=
  let outLen := out.getD DEFAULT_OUTPUT_LEN
  if 8 ≤ m ∧ 1 ≤ t ∧ 1 ≤ p ∧ p ≤ 0xFFFFFF ∧ 4 ≤ outLen then
    some ⟨m, t, p, outLen⟩
  else none

/-- A simple executable mixing fold, used by the models of the external
hash primitives (Argon2, blake3, `DefaultHasher`, the Poly1305 tag). -/
def mixFold (acc : Nat) (bs : Bytes) : Nat :=
  bs.foldl (fun a b => (a * 131 + b.val + 7) % 1000003) acc

/-- Model of Argon2id (`Argon2::hash_password` with `Version::V0x13`):
a deterministic function of the full parameter set, the password and the
salt, producing `outputLen` bytes.  Faithful to the interface contract the
source relies on: determinism, fixed output length, and dependence on
every parameter (in particular the time-cost). -/
def argon2Hash (p : Argon2Params) (password salt : Bytes) : Bytes :=
  let seed := mixFold (((p.mCost * 31 + p.tCost) * 31 + p.pCost) * 31 + p.outputLen)
    (password ++ ⟨255, by omega⟩ :: salt)
  (List.range p.outputLen).map (fun i => ⟨(seed * (i + 3) + i * i) % 256, by omega⟩)

/-- `PasswordHasher::hash_password` also validates the salt (the
`password_hash` crate accepts salts of 4 to 64 bytes). -/
def hashPassword (p : Argon2Params) (password salt : Bytes) : Option Bytes :=
  if 4 ≤ salt.length ∧ salt.length ≤ 64 then some (argon2Hash p password salt)
  else none

theorem argon2Hash_length (p : Argon2Params) (password salt : Bytes) :
    (argon2Hash p password salt).length = p.outputLen := by
  simp [argon2Hash]

/-! ## Model of the external `chacha20poly1305` crate

The AEAD cipher is modelled by an additive keystream mask plus a 16-byte
tag over (key, nonce, plaintext); decryption strips and checks the tag.
This realizes the interface contract used by the source: ciphertext length
is plaintext length + 16, decryption of an unmodified ciphertext under the
same key and nonce returns the plaintext, and a tag mismatch fails. -/

/-- Keystream byte `i` for a key and nonce. -/
def ks (key nonce : Bytes) (i : Nat) : Nat :=
  (mixFold (mixFold 91 key) nonce + i * 37 + 11) % 256

theorem ks_lt (key nonce : Bytes) (i : Nat) : ks key nonce i < 256 :=
  Nat.mod_lt _ (by omega)

/-- Apply the keystream from position `i` on. -/
def maskFrom (key nonce : Bytes) (i : Nat) : Bytes → Bytes
  | [] => []
  | b :: rest =>
    ⟨(b.val + ks key nonce i) % 256, by omega⟩ :: maskFrom key nonce (i + 1) rest

/-- Remove the keystream from position `i` on. -/
def unmaskFrom (key nonce : Bytes) (i : Nat) : Bytes → Bytes
  | [] => []
  | b :: rest =>
    ⟨(b.val + 256 - ks key nonce i) % 256, by omega⟩ :: unmaskFrom key nonce (i + 1) rest

theorem unmaskFrom_maskFrom (key nonce : Bytes) :
    ∀ (i : Nat) (msg : Bytes), unmaskFrom key nonce i (maskFrom key nonce i msg) = msg
  | _, [] => rfl
  | i, b :: rest => by
    have hb := b.isLt
    have hk := ks_lt key nonce i
    simp only [maskFrom, unmaskFrom, unmaskFrom_maskFrom key nonce (i + 1) rest,
      List.cons.injEq, and_true]
    apply Fin.ext
    simp only []
    omega

theorem maskFrom_length (key nonce : Bytes) :
    ∀ (i : Nat) (msg : Bytes), (maskFrom key nonce i msg).length = msg.length
  | _, [] => rfl
  | i, _ :: rest => by
    simp only [maskFrom, List.length_cons, maskFrom_length key nonce (i + 1) rest]

/-- The 16-byte authentication tag over (key, nonce, plaintext). -/
def polyTag (key nonce msg : Bytes) : Bytes :=
  let seed := mixFold (mixFold (mixFold 77 key) nonce) msg
  (List.range 16).map (fun i => ⟨(seed * (i + 5) + i) % 256, by omega⟩)

theorem polyTag_length (key nonce msg : Bytes) : (polyTag key nonce msg).length = 16 := by
  simp [polyTag]

/-- `ChaCha20Poly1305::encrypt`. -/
def chachaEncrypt (key nonce msg : Bytes) : Bytes :=
  maskFrom key nonce 0 msg ++ polyTag key nonce msg

/-- `ChaCha20Poly1305::decrypt`: strips the trailing 16-byte tag, unmasks
the body, recomputes and checks the tag; a mismatch is an `aead::Error`. -/
def chachaDecrypt (key nonce ct : Bytes) : Option Bytes :=
  if ct.length < 16 then none
  else
    let body := ct.take (ct.length - 16)
    let tag := ct.drop (ct.length - 16)
    let msg := unmaskFrom key nonce 0 body
    if polyTag key nonce msg = tag then some msg else none

theorem chachaEncrypt_length (key nonce msg : Bytes) :
    (chachaEncrypt key nonce msg).length = msg.length + 16 := by
  simp [chachaEncrypt, maskFrom_length, polyTag_length]

theorem chacha_roundtrip (key nonce msg : Bytes) :
    chachaDecrypt key nonce (chachaEncrypt key nonce msg) = some msg := by
  have hlen := chachaEncrypt_length key nonce msg
  have hm := maskFrom_length key nonce 0 msg
  rw [chachaDecrypt, if_neg (by omega)]
  have htake : (chachaEncrypt key nonce msg).take ((chachaEncrypt key nonce msg).length - 16)
      = maskFrom key nonce 0 msg := by
    rw [hlen, chachaEncrypt, Nat.add_sub_cancel, ← hm, List.take_left]
  have hdrop : (chachaEncrypt key nonce msg).drop ((chachaEncrypt key nonce msg).length - 16)
      = polyTag key nonce msg := by
    rw [hlen, chachaEncrypt, Nat.add_sub_cancel, ← hm, List.drop_left]
  simp [htake, hdrop, unmaskFrom_maskFrom]

/-! ## The key cache (`SimpleCache` in `src/crypto.rs`)

`HashMap<CacheKey, [u8; 32]>` is modelled as an association list whose
keys, under the cache invariant, are pairwise distinct (a `HashMap` never
holds two entries with the same key); `VecDeque<CacheKey>` as a list with
the front at the head.  `blake3::Hash` cache keys (and the `u64` keys of
the sibling cache in `src/order.rs`) are modelled as `Nat`. -/

abbrev CacheKey := Nat

/-- `const MAX_CACHE_SIZE: usize = 50`. -/
def MAX_CACHE_SIZE : Nat := 50

structure SimpleCache where
  map : List (CacheKey × Bytes)
  order : List CacheKey
  deriving DecidableEq, Repr

namespace SimpleCache

/-- `SimpleCache::new`. -/
def new : SimpleCache := ⟨[], []⟩

/-- `HashMap::get`-style lookup in the association list. -/
def findVal (k : CacheKey) : List (CacheKey × Bytes) → Option Bytes
  | [] => none
  | (k', v) :: rest => if k' = k then some v else findVal k rest

/-- `HashMap::contains_key`. -/
def containsKey (k : CacheKey) (m : List (CacheKey × Bytes)) : Bool :=
  (findVal k m).isSome

/-- `HashMap::remove` (under the no-duplicate-keys invariant, removing
every pair with the key equals removing the single entry). -/
def removeKey (k : CacheKey) (m : List (CacheKey × Bytes)) : List (CacheKey × Bytes) :=
  m.filter (fun p => decide (p.1 ≠ k))

/-- `HashMap::insert`: replace the entry if the key is present, add it
otherwise (the map is an unordered container, so the replaced entry is
placed at the tail). -/
def insertKV (k : CacheKey) (v : Bytes) (m : List (CacheKey × Bytes)) :
    List (CacheKey × Bytes) :=
  removeKey k m ++ [(k, v)]

/-- `VecDeque::retain(|&x| x != k)`. -/
def retainNe (k : CacheKey) (q : List CacheKey) : List CacheKey :=
  q.filter (fun k' => decide (k' ≠ k))

/-- `SimpleCache::get`: on a hit, move the key to the most-recently-used
end and return a copy of the value. -/
def get (k : CacheKey) (c : SimpleCache) : Option Bytes × SimpleCache :=
  match findVal k c.map with
  | some v => (some v, ⟨c.map, retainNe k c.order ++ [k]⟩)
  | none => (none, c)

/-- `SimpleCache::put`: evict the oldest entry when inserting a fresh key
into a full map, then move the key to the most-recently-used end and
insert the value. -/
def put (k : CacheKey) (v : Bytes) (c : SimpleCache) : SimpleCache :=
  let c1 :=
    if ¬ containsKey k c.map ∧ MAX_CACHE_SIZE ≤ c.map.length then
      match c.order with
      | [] => c
      | oldest :: restOrder => ⟨removeKey oldest c.map, restOrder⟩
    else c
  ⟨insertKV k v c1.map, retainNe k c1.order ++ [k]⟩

/-- The value-overwriting loop of `impl Zeroize for SimpleCache`
(`for value in self.map.values_mut() { value.zeroize(); }`). -/
def zeroizeValues (c : SimpleCache) : SimpleCache :=
  ⟨c.map.map (fun p => (p.1, List.replicate 32 (0 : Byte))), c.order⟩

/-- `SimpleCache::zeroize`: overwrite every stored value with zero bytes,
then clear the map and the queue. -/
def zeroize (c : SimpleCache) : SimpleCache :=
  let c1 := zeroizeValues c
  ⟨c1.map.take 0, c1.order.take 0⟩

/-- `impl Drop for SimpleCache` calls `self.zeroize()`. -/
def drop (c : SimpleCache) : SimpleCache := zeroize c

/-- The cache invariant: the map holds at most `MAX_CACHE_SIZE` entries
with pairwise-distinct keys, and the access-order queue contains exactly
the keys of the map, each exactly once (front = oldest). -/
structure Inv (c : SimpleCache) : Prop where
  nodupKeys : (c.map.map Prod.fst).Nodup
  nodupOrder : c.order.Nodup
  sameKeys : ∀ k, k ∈ c.order ↔ containsKey k c.map = true
  bound : c.map.length ≤ MAX_CACHE_SIZE

end SimpleCache

namespace SimpleCache

theorem findVal_isSome_iff (k : CacheKey) (m : List (CacheKey × Bytes)) :
    (findVal k m).isSome = true ↔ k ∈ m.map Prod.fst := by
  induction m with
  | nil => simp [findVal]
  | cons p rest ih =>
    obtain ⟨k', v⟩ := p
    by_cases h : k' = k
    · subst h
      simp [findVal]
    · simp only [findVal, if_neg h, List.map_cons, List.mem_cons, ih]
      constructor
      · exact Or.inr
      · rintro (h' | h')
        · exact absurd h'.symm h
        · exact h'

theorem containsKey_iff (k : CacheKey) (m : List (CacheKey × Bytes)) :
    containsKey k m = true ↔ k ∈ m.map Prod.fst :=
  findVal_isSome_iff k m

theorem keys_removeKey (k : CacheKey) (m : List (CacheKey × Bytes)) :
    (removeKey k m).map Prod.fst = (m.map Prod.fst).filter (fun x => decide (x ≠ k)) := by
  induction m with
  | nil => rfl
  | cons p rest ih =>
    simp only [removeKey, List.filter_cons, ne_eq, decide_not] at ih ⊢
    by_cases h : p.1 = k
    · simp [h, ih]
    · simp [h, ih]

theorem removeKey_of_not_contains (k : CacheKey) (m : List (CacheKey × Bytes))
    (h : containsKey k m = false) : removeKey k m = m := by
  have hk : k ∉ m.map Prod.fst := by
    intro hmem
    rw [← containsKey_iff k m, h] at hmem
    exact Bool.false_ne_true hmem
  apply List.filter_eq_self.mpr
  intro p hp
  simp only [decide_eq_true_eq]
  intro hpk
  exact hk (by rw [← hpk]; exact List.mem_map_of_mem Prod.fst hp)

theorem length_removeKey_le (k : CacheKey) (m : List (CacheKey × Bytes)) :
    (removeKey k m).length ≤ m.length :=
  List.length_filter_le _ m

theorem length_removeKey_lt (k : CacheKey) (m : List (CacheKey × Bytes))
    (h : containsKey k m = true) : (removeKey k m).length < m.length := by
  induction m with
  | nil => simp [containsKey, findVal] at h
  | cons p rest ih =>
    rw [containsKey_iff] at h
    simp only [List.map_cons, List.mem_cons] at h
    simp only [removeKey, List.filter_cons, ne_eq, decide_not] at ih ⊢
    by_cases hp : p.1 = k
    · have hle := List.length_filter_le
        (fun x : CacheKey × Bytes => !decide (x.1 = k)) rest
      simp [hp]
      omega
    · have hrest : k ∈ rest.map Prod.fst := by
        rcases h with h | h
        · exact absurd h.symm hp
        · exact h
      have hlt := ih ((containsKey_iff k rest).mpr hrest)
      simp [hp]
      omega

theorem mem_retainNe (k k' : CacheKey) (q : List CacheKey) :
    k' ∈ retainNe k q ↔ k' ∈ q ∧ k' ≠ k := by
  simp [retainNe]

theorem keys_insertKV (k : CacheKey) (v : Bytes) (m : List (CacheKey × Bytes)) :
    (insertKV k v m).map Prod.fst
      = (m.map Prod.fst).filter (fun x => decide (x ≠ k)) ++ [k] := by
  simp only [insertKV, List.map_append, keys_removeKey]
  rfl

theorem nodup_keys_insertKV (k : CacheKey) (v : Bytes) (m : List (CacheKey × Bytes))
    (h : (m.map Prod.fst).Nodup) : ((insertKV k v m).map Prod.fst).Nodup := by
  rw [keys_insertKV, List.nodup_append]
  refine ⟨h.filter _, List.nodup_singleton k, ?_⟩
  intro a ha hb
  rw [List.mem_singleton] at hb
  subst hb
  rcases List.mem_filter.mp ha with ⟨_, hdec⟩
  simp at hdec

theorem contains_insertKV (k k' : CacheKey) (v : Bytes) (m : List (CacheKey × Bytes)) :
    containsKey k' (insertKV k v m) = true ↔ k' = k ∨ containsKey k' m = true := by
  rw [containsKey_iff, keys_insertKV]
  by_cases hk : k' = k <;>
    simp [hk, List.mem_append, List.mem_filter, containsKey_iff]

theorem length_insertKV (k : CacheKey) (v : Bytes) (m : List (CacheKey × Bytes)) :
    (insertKV k v m).length = (removeKey k m).length + 1 := by
  simp [insertKV]

theorem contains_removeKey (k k' : CacheKey) (m : List (CacheKey × Bytes)) :
    containsKey k' (removeKey k m) = true ↔ k' ∈ m.map Prod.fst ∧ k' ≠ k := by
  rw [containsKey_iff, keys_removeKey]
  simp [List.mem_filter]

/-- Core step of the `put` invariant proof: inserting into an intermediate
cache that satisfies the invariant and has room (or already holds the key)
yields a cache satisfying the invariant. -/
theorem inv_insert_step (k : CacheKey) (v : Bytes) (c1 : SimpleCache) (h1 : Inv c1)
    (hroom : containsKey k c1.map = true ∨ c1.map.length < MAX_CACHE_SIZE) :
    Inv ⟨insertKV k v c1.map, retainNe k c1.order ++ [k]⟩ := by
  constructor
  · exact nodup_keys_insertKV k v c1.map h1.nodupKeys
  · rw [List.nodup_append]
    refine ⟨h1.nodupOrder.filter _, List.nodup_singleton k, ?_⟩
    intro a ha hb
    rw [List.mem_singleton] at hb
    rw [hb] at ha
    exact ((mem_retainNe k k c1.order).mp ha).2 rfl
  · intro k'
    show k' ∈ retainNe k c1.order ++ [k] ↔ _
    rw [List.mem_append, List.mem_singleton, mem_retainNe, contains_insertKV]
    by_cases hk : k' = k
    · simp [hk]
    · simp only [hk, or_false, false_or, and_iff_left hk]
      exact h1.sameKeys k'
  · show (insertKV k v c1.map).length ≤ MAX_CACHE_SIZE
    rw [length_insertKV]
    rcases hroom with hc | hl
    · have := length_removeKey_lt k c1.map hc
      have := h1.bound
      omega
    · have := length_removeKey_le k c1.map
      omega

theorem inv_put (k : CacheKey) (v : Bytes) (c : SimpleCache) (h : Inv c) :
    Inv (put k v c) := by
  unfold put
  by_cases hcond : ¬ containsKey k c.map = true ∧ MAX_CACHE_SIZE ≤ c.map.length
  · rw [if_pos hcond]
    cases horder : c.order with
    | nil =>
      -- impossible: a map of 50 entries with an empty access queue
      exfalso
      cases hmap : c.map with
      | nil =>
        rw [hmap] at hcond
        simp [MAX_CACHE_SIZE] at hcond
      | cons p rest =>
        have hmem : p.1 ∈ c.map.map Prod.fst := by rw [hmap]; simp
        have := (h.sameKeys p.1).mpr ((containsKey_iff p.1 c.map).mpr hmem)
        rw [horder] at this
        simp at this
    | cons oldest restOrder =>
      have hold : containsKey oldest c.map = true := by
        apply (h.sameKeys oldest).mp
        rw [horder]
        simp
      have h1 : Inv ⟨removeKey oldest c.map, restOrder⟩ := by
        constructor
        · rw [keys_removeKey]
          exact h.nodupKeys.filter _
        · have := h.nodupOrder
          rw [horder] at this
          exact (List.nodup_cons.mp this).2
        · intro k'
          show k' ∈ restOrder ↔ _
          rw [contains_removeKey]
          have hnodup := h.nodupOrder
          rw [horder, List.nodup_cons] at hnodup
          constructor
          · intro hk'
            refine ⟨?_, ?_⟩
            · rw [← containsKey_iff]
              apply (h.sameKeys k').mp
              rw [horder]
              exact List.mem_cons_of_mem _ hk'
            · intro hkeq
              subst hkeq
              exact hnodup.1 hk'
          · rintro ⟨hmem, hne⟩
            have := (h.sameKeys k').mpr ((containsKey_iff k' c.map).mpr hmem)
            rw [horder, List.mem_cons] at this
            rcases this with h' | h'
            · exact absurd h' hne
            · exact h'
        · exact le_trans (length_removeKey_le oldest c.map) h.bound
      apply inv_insert_step k v _ h1
      right
      show (removeKey oldest c.map).length < MAX_CACHE_SIZE
      have := length_removeKey_lt oldest c.map hold
      have := h.bound
      omega
  · rw [if_neg hcond]
    apply inv_insert_step k v c h
    rcases not_and_or.mp hcond with h' | h'
    · left
      exact not_not.mp h'
    · right
      omega

theorem inv_get (k : CacheKey) (c : SimpleCache) (h : Inv c) : Inv (get k c).2 := by
  unfold get
  cases hf : findVal k c.map with
  | none => exact h
  | some v =>
    have hc : containsKey k c.map = true := by
      simp [containsKey, hf]
    constructor
    · exact h.nodupKeys
    · rw [List.nodup_append]
      refine ⟨h.nodupOrder.filter _, List.nodup_singleton k, ?_⟩
      intro a ha hb
      rw [List.mem_singleton] at hb
      rw [hb] at ha
      exact ((mem_retainNe k k c.order).mp ha).2 rfl
    · intro k'
      show k' ∈ retainNe k c.order ++ [k] ↔ _
      rw [List.mem_append, List.mem_singleton, mem_retainNe]
      by_cases hk : k' = k
      · simp [hk, hc]
      · simp only [hk, or_false, false_or, and_iff_left hk]
        exact h.sameKeys k'
    · exact h.bound

theorem inv_new : Inv SimpleCache.new := by
  constructor
  · simp [SimpleCache.new]
  · simp [SimpleCache.new]
  · intro k
    simp [SimpleCache.new, containsKey, findVal]
  · simp [SimpleCache.new, MAX_CACHE_SIZE]

end SimpleCache

/-! ## The field codec (`CryptoUtils` in `src/crypto.rs`) -/

/-- `DERIVED_KEY_LENGTH` in `src/crypto.rs`. -/
def DERIVED_KEY_LENGTH : Nat := 32

/-- `SALT_SIZE` in `src/crypto.rs` (and the local constant in `src/order.rs`). -/
def SALT_SIZE : Nat := 16

/-- `NONCE_SIZE` in `src/crypto.rs` (and the local constant in `src/order.rs`). -/
def NONCE_SIZE : Nat := 12

/-- `make_cache_key` in `src/crypto.rs`: model of `blake3::hash` over
`password || salt`; the salt enters as its base64 `SaltString` rendering,
a bijective image of the raw salt bytes, folded into the model. -/
def make_cache_key (password salt : Bytes) : CacheKey :=
  mixFold 137 (password ++ ⟨254, by omega⟩ :: salt)

namespace CryptoUtils

/-- The Argon2 parameter set built inside `CryptoUtils::derive_key`:
`Params::new(DEFAULT_M_COST, DEFAULT_T_COST, DEFAULT_P_COST * 2,
Some(DEFAULT_OUTPUT_LEN))`.  This single definition feeds both the encrypt
path (`store_encrypted`) and the decrypt path (`decrypt`), which both call
`derive_key`. -/
def kdfParams : Option Argon2Params :=
  Params.new DEFAULT_M_COST DEFAULT_T_COST (DEFAULT_P_COST * 2) (some DEFAULT_OUTPUT_LEN)

/-- `CryptoUtils::derive_key`. -/
def derive_key (password salt : Bytes) : Except ServiceError Bytes :=
  match kdfParams with
  | none => .error (.EncryptionError "Error creating params")
  | some params =>
    match hashPassword params password salt with
    | none => .error (.EncryptionError "Error hashing password")
    | some key =>
      if key.length ≠ DERIVED_KEY_LENGTH then
        .error (.EncryptionError "Key length is not 32 bytes")
      else .ok key

/-- `CryptoUtils::encrypt` (the random 96-bit nonce is an explicit
argument). -/
def encrypt (data key salt nonce : Bytes) : Except ServiceError Bytes :=
  if key.length ≠ DERIVED_KEY_LENGTH then
    .error (.EncryptionError "Key length is not 32 bytes")
  else if salt.length ≠ SALT_SIZE then
    .error (.EncryptionError "Salt length is not 16 bytes")
  else
    let ciphertext := chachaEncrypt key nonce data
    .ok (b64encode (nonce ++ salt ++ ciphertext))

/-- `CryptoUtils::decrypt`: split nonce and salt off the decoded blob,
fetch the derived key from the global cache or derive and cache it, then
AEAD-decrypt.  The global `KEY_CACHE` is threaded explicitly; `none`
models a panic of the `split_at` calls (unreachable from `decrypt_data`,
which validates the length first). -/
def decrypt (data password : Bytes) (cache : SimpleCache) :
    Option (Except ServiceError Bytes × SimpleCache) :=
  match splitAt? NONCE_SIZE data with
  | none => none
  | some (nonce, rest) =>
    match splitAt? SALT_SIZE rest with
    | none => none
    | some (salt, ciphertext) =>
      -- `SaltString::encode_b64` rejects oversized salts
      if 64 < salt.length then
        some (.error (.DecryptionError "Error decoding salt"), cache)
      else
        let cache_key := make_cache_key password salt
        let step : Except ServiceError (Bytes × SimpleCache) :=
          match cache.get cache_key with
          | (some cached_key, cache1) => .ok (cached_key, cache1)
          | (none, cache1) =>
            match derive_key password salt with
            | .error _ => .error (.DecryptionError "Error deriving key")
            | .ok key_bytes => .ok (key_bytes, cache1.put cache_key key_bytes)
        match step with
        | .error e => some (.error e, cache)
        | .ok (key_bytes, cache2) =>
          match chachaDecrypt key_bytes nonce ciphertext with
          | none => some (.error (.DecryptionError "aead::Error"), cache2)
          | some decrypted => some (.ok decrypted, cache2)

/-- `CryptoUtils::decrypt_data`. -/
def decrypt_data (data : Bytes) (password : Option Bytes) (cache : SimpleCache) :
    Option (Except ServiceError Bytes × SimpleCache) :=
  match password with
  | none => some (.ok data, cache)
  | some pwd =>
    match b64decode data with
    | none => some (.error (.DecryptionError "Error decoding encrypted data"), cache)
    | some encrypted_bytes =>
      if encrypted_bytes.length < NONCE_SIZE + SALT_SIZE then
        some (.error (.DecryptionError
          "Invalid encrypted data: too short for nonce and salt"), cache)
      else
        match decrypt encrypted_bytes pwd cache with
        | none => none
        | some (.error e, cache1) => some (.error e, cache1)
        | some (.ok decrypted, cache1) =>
          if utf8Valid decrypted then some (.ok decrypted, cache1)
          else some (.error (.DecryptionError
            "Error converting encrypted data to string"), cache1)

/-- `CryptoUtils::store_encrypted` (salt generation and the nonce are
explicit arguments; `fixed_salt = none` selects the generated
`rnd_salt`). -/
def store_encrypted (idkey : Bytes) (password : Option Bytes)
    (fixed_salt : Option Bytes) (rnd_salt rnd_nonce : Bytes) :
    Except ServiceError Bytes :=
  match password with
  | none => .ok idkey
  | some pwd =>
    let salt := fixed_salt.getD rnd_salt
    -- decode into the 16-byte `Salt::RECOMMENDED_LENGTH` buffer
    if SALT_SIZE < salt.length then .error (.EncryptionError "Error decoding salt")
    else
      match derive_key pwd salt with
      | .error _ => .error (.EncryptionError "Error deriving key")
      | .ok key_bytes =>
        match encrypt idkey key_bytes salt rnd_nonce with
        | .error _ => .error (.EncryptionError "Error encrypting data")
        | .ok ciphertext_base64 => .ok ciphertext_base64

end CryptoUtils

/-! ## The duplicated codec in `src/order.rs` -/

/-- `make_cache_key` in `src/order.rs`: model of `DefaultHasher` over
`(password, salt)` producing a `u64`. -/
def order.make_cache_key (password salt : Bytes) : CacheKey :=
  mixFold 57 (password ++ ⟨253, by omega⟩ :: salt)

/-- The Argon2 parameter set built inline in `decrypt_data` of
`src/order.rs`: `Params::new(DEFAULT_M_COST, MIN_T_COST,
DEFAULT_P_COST * 2, Some(DEFAULT_OUTPUT_LEN))`. -/
def order.decryptParams : Option Argon2Params :=
  Params.new DEFAULT_M_COST MIN_T_COST (DEFAULT_P_COST * 2) (some DEFAULT_OUTPUT_LEN)

/-- The Argon2 parameter set built inline in `store_encrypted` of
`src/order.rs` (same constants as its decrypt path). -/
def order.storeParams : Option Argon2Params :=
  Params.new DEFAULT_M_COST MIN_T_COST (DEFAULT_P_COST * 2) (some DEFAULT_OUTPUT_LEN)

/-- `decrypt_data` in `src/order.rs`.  Unlike
`CryptoUtils::decrypt_data`, there is no length guard between the base64
decode and the two `split_at` calls, so a decoded input shorter than
`NONCE_SIZE + SALT_SIZE` panics (`none`). -/
def order.decrypt_data (data : Bytes) (password : Option Bytes) (cache : SimpleCache) :
    Option (Except ServiceError Bytes × SimpleCache) :=
  match password with
  | none => some (.ok data, cache)
  | some pwd =>
    match b64decode data with
    | none => some (.error (.DecryptionError "Error decoding encrypted data"), cache)
    | some encrypted_bytes =>
      match splitAt? NONCE_SIZE encrypted_bytes with
      | none => none
      | some (nonce, rest) =>
        match splitAt? SALT_SIZE rest with
        | none => none
        | some (salt, ciphertext) =>
          if 64 < salt.length then
            some (.error (.DecryptionError "Error decoding salt"), cache)
          else
            let cache_key := order.make_cache_key pwd salt
            let step : Except ServiceError (Bytes × SimpleCache) :=
              match cache.get cache_key with
              | (some cached_key, cache1) => .ok (cached_key, cache1)
              | (none, cache1) =>
                match order.decryptParams with
                | none => .error (.DecryptionError "Error Argon2 creating params")
                | some params =>
                  match hashPassword params pwd salt with
                  | none => .error (.DecryptionError "Error hashing password")
                  | some key_bytes =>
                    if key_bytes.length ≠ 32 then
                      .error (.DecryptionError "Key length is not 32 bytes")
                    else .ok (key_bytes, cache1.put cache_key key_bytes)
            match step with
            | .error e => some (.error e, cache)
            | .ok (key_bytes, cache2) =>
              match chachaDecrypt key_bytes nonce ciphertext with
              | none => some (.error (.DecryptionError "aead::Error"), cache2)
              | some decrypted =>
                if utf8Valid decrypted then some (.ok decrypted, cache2)
                else some (.error (.DecryptionError
                  "Error converting encrypted data to string"), cache2)

/-- `store_encrypted` in `src/order.rs` (the salt — fixed under
`cfg(test)`, random otherwise — and the nonce are explicit arguments). -/
def order.store_encrypted (idkey : Bytes) (password : Option Bytes)
    (salt rnd_nonce : Bytes) : Except ServiceError Bytes :=
  match password with
  | none => .ok idkey
  | some pwd =>
    if SALT_SIZE < salt.length then .error (.EncryptionError "Error decoding salt")
    else
      match order.storeParams with
      | none => .error (.EncryptionError "Error creating params")
      | some params =>
        match hashPassword params pwd salt with
        | none => .error (.EncryptionError "Error hashing password")
        | some key_bytes =>
          if key_bytes.length ≠ 32 then
            .error (.EncryptionError "Key length is not 32 bytes")
          else
            let ciphertext := chachaEncrypt key_bytes rnd_nonce idkey
            .ok (b64encode (rnd_nonce ++ salt ++ ciphertext))

/-! ## Message envelope (`src/message.rs`) -/

/-- A 128-bit `uuid::Uuid`, modelled by its numeric value. -/
abbrev Uuid := Nat

/-- `Kind` in `src/order.rs`. -/
inductive Kind where
  | Buy
  | Sell
  deriving DecidableEq, Repr

/-- `Status` in `src/order.rs`. -/
inductive Status where
  | Active
  | Canceled
  | CanceledByAdmin
  | SettledByAdmin
  | CompletedByAdmin
  | Dispute
  | Expired
  | FiatSent
  | SettledHoldInvoice
  | Pending
  | Success
  | WaitingBuyerInvoice
  | WaitingPayment
  | CooperativelyCanceled
  | InProgress
  deriving DecidableEq, Repr

/-- `UserInfo` in `src/user.rs` (the `f64` rating is modelled as `Rat`;
no embedded operation computes with it). -/
structure UserInfo where
  rating : Rat
  reviews : Int
  operating_days : Nat
  deriving DecidableEq, Repr

/-- `Peer` in `src/message.rs`. -/
structure Peer where
  pubkey : Bytes
  reputation : Option UserInfo
  deriving DecidableEq, Repr

/-- `CantDoReason` in `src/error.rs`. -/
inductive CantDoReason where
  | InvalidSignature
  | InvalidTradeIndex
  | InvalidAmount
  | InvalidInvoice
  | InvalidPaymentRequest
  | InvalidPeer
  | InvalidRating
  | InvalidTextMessage
  | InvalidOrderKind
  | InvalidOrderStatus
  | InvalidPubkey
  | InvalidParameters
  | OrderAlreadyCanceled
  | CantCreateUser
  | IsNotYourOrder
  | NotAllowedByStatus
  | OutOfRangeFiatAmount
  | OutOfRangeSatsAmount
  | IsNotYourDispute
  | DisputeCreationError
  | NotFound
  | InvalidDisputeStatus
  deriving DecidableEq, Repr

/-- `SmallOrder` in `src/order.rs`. -/
structure SmallOrder where
  id : Option Uuid
  kind : Option Kind
  status : Option Status
  amount : Int
  fiat_code : Bytes
  min_amount : Option Int
  max_amount : Option Int
  fiat_amount : Int
  payment_method : Bytes
  premium : Int
  buyer_trade_pubkey : Option Bytes
  seller_trade_pubkey : Option Bytes
  buyer_invoice : Option Bytes
  created_at : Option Int
  expires_at : Option Int
  buyer_token : Option Nat
  seller_token : Option Nat
  deriving DecidableEq, Repr

/-- `SolverDisputeInfo` in `src/dispute.rs`. -/
structure SolverDisputeInfo where
  id : Uuid
  kind : Bytes
  status : Bytes
  hash : Option Bytes
  preimage : Option Bytes
  order_previous_status : Bytes
  initiator_pubkey : Bytes
  buyer_pubkey : Option Bytes
  buyer_token : Option Nat
  seller_pubkey : Option Bytes
  seller_token : Option Nat
  initiator_full_privacy : Bool
  counterpart_full_privacy : Bool
  initiator_info : Option UserInfo
  counterpart_info : Option UserInfo
  premium : Int
  payment_method : Bytes
  amount : Int
  fiat_amount : Int
  fee : Int
  routing_fee : Int
  buyer_invoice : Option Bytes
  invoice_held_at : Int
  taken_at : Int
  created_at : Int
  deriving DecidableEq, Repr

/-- `PaymentFailedInfo` in `src/message.rs`. -/
structure PaymentFailedInfo where
  payment_attempts : Nat
  payment_retries_interval : Nat
  deriving DecidableEq, Repr

/-- `RestoredOrdersInfo` in `src/message.rs`. -/
structure RestoredOrdersInfo where
  order_id : Uuid
  trade_index : Int
  status : Bytes
  deriving DecidableEq, Repr

/-- `RestoredDisputesInfo` in `src/message.rs`. -/
structure RestoredDisputesInfo where
  dispute_id : Uuid
  order_id : Uuid
  trade_index : Int
  status : Bytes
  deriving DecidableEq, Repr

/-- `RestoreSessionInfo` in `src/message.rs`. -/
structure RestoreSessionInfo where
  restore_orders : List RestoredOrdersInfo
  restore_disputes : List RestoredDisputesInfo
  deriving DecidableEq, Repr

/-- `Action` in `src/message.rs`. -/
inductive Action where
  | NewOrder
  | TakeSell
  | TakeBuy
  | PayInvoice
  | FiatSent
  | FiatSentOk
  | Release
  | Released
  | Cancel
  | Canceled
  | CooperativeCancelInitiatedByYou
  | CooperativeCancelInitiatedByPeer
  | DisputeInitiatedByYou
  | DisputeInitiatedByPeer
  | CooperativeCancelAccepted
  | BuyerInvoiceAccepted
  | PurchaseCompleted
  | HoldInvoicePaymentAccepted
  | HoldInvoicePaymentSettled
  | HoldInvoicePaymentCanceled
  | WaitingSellerToPay
  | WaitingBuyerInvoice
  | AddInvoice
  | BuyerTookOrder
  | Rate
  | RateUser
  | RateReceived
  | CantDo
  | Dispute
  | AdminCancel
  | AdminCanceled
  | AdminSettle
  | AdminSettled
  | AdminAddSolver
  | AdminTakeDispute
  | AdminTookDispute
  | PaymentFailed
  | InvoiceUpdated
  | SendDm
  | TradePubkey
  | RestoreSession
  | LastTradeIndex
  | Orders
  deriving DecidableEq, Repr

/-- `Payload` in `src/message.rs` (`Amount` is `i64`; `RatingUser`
carries a `u8`). -/
inductive Payload where
  | Order (o : SmallOrder)
  | PaymentRequest (o : Option SmallOrder) (pr : Bytes) (amount : Option Int)
  | TextMessage (s : Bytes)
  | Peer (p : Peer)
  | RatingUser (v : Byte)
  | Amount (a : Int)
  | Dispute (id : Uuid) (info : Option SolverDisputeInfo)
  | CantDo (reason : Option CantDoReason)
  | NextTrade (key : Bytes) (index : Nat)
  | PaymentFailed (info : PaymentFailedInfo)
  | RestoreData (info : RestoreSessionInfo)
  | Ids (ids : List Uuid)
  | Orders (orders : List SmallOrder)
  deriving DecidableEq, Repr

/-- `MAX_RATING` in `src/prelude.rs`. -/
def MAX_RATING : Nat := 5

/-- `MIN_RATING` in `src/prelude.rs`. -/
def MIN_RATING : Nat := 1

/-- `PROTOCOL_VER` in `src/prelude.rs`. -/
def PROTOCOL_VER : Nat := 1

/-- `MessageKind` in `src/message.rs`. -/
structure MessageKind where
  version : Nat
  request_id : Option Nat
  trade_index : Option Int
  id : Option Uuid
  action : Action
  payload : Option Payload
  deriving DecidableEq, Repr

namespace MessageKind

/-- `MessageKind::new`. -/
def new (id : Option Uuid) (request_id : Option Nat) (trade_index : Option Int)
    (action : Action) (payload : Option Payload) : MessageKind :=
  { version := PROTOCOL_VER
    request_id := request_id
    trade_index := trade_index
    id := id
    action := action
    payload := payload }

/-- `MessageKind::get_action`. -/
def get_action (m : MessageKind) : Action := m.action

/-- `MessageKind::get_rating`. -/
def get_rating (m : MessageKind) : Except ServiceError Byte :=
  match m.payload with
  | some (Payload.RatingUser v) =>
    if ¬ (MIN_RATING ≤ v.val ∧ v.val ≤ MAX_RATING) then
      .error .InvalidRatingValue
    else .ok v
  | _ => .error .InvalidRating

/-- `MessageKind::verify`. -/
def verify (m : MessageKind) : Bool :=
  match m.action with
  | .NewOrder =>
    match m.payload with
    | some (Payload.Order _) => true
    | _ => false
  | .PayInvoice | .AddInvoice =>
    if m.id.isNone then false
    else
      match m.payload with
      | some (Payload.PaymentRequest _ _ _) => true
      | _ => false
  | .TakeSell | .TakeBuy | .FiatSent | .FiatSentOk | .Release | .Released
  | .Dispute | .AdminCancel | .AdminCanceled | .AdminSettle | .AdminSettled
  | .Rate | .RateReceived | .AdminTakeDispute | .AdminTookDispute
  | .DisputeInitiatedByYou | .DisputeInitiatedByPeer | .WaitingBuyerInvoice
  | .PurchaseCompleted | .HoldInvoicePaymentAccepted | .HoldInvoicePaymentSettled
  | .HoldInvoicePaymentCanceled | .WaitingSellerToPay | .BuyerTookOrder
  | .BuyerInvoiceAccepted | .CooperativeCancelInitiatedByYou
  | .CooperativeCancelInitiatedByPeer | .CooperativeCancelAccepted | .Cancel
  | .InvoiceUpdated | .AdminAddSolver | .SendDm | .TradePubkey | .Canceled =>
    if m.id.isNone then false else true
  | .PaymentFailed =>
    if m.id.isNone then false
    else
      match m.payload with
      | some (Payload.PaymentFailed _) => true
      | _ => false
  | .RateUser =>
    match m.payload with
    | some (Payload.RatingUser _) => true
    | _ => false
  | .CantDo =>
    match m.payload with
    | some (Payload.CantDo _) => true
    | _ => false
  | .RestoreSession =>
    if m.id.isSome ∨ m.request_id.isSome ∨ m.trade_index.isSome then false
    else
      match m.payload with
      | none => true
      | some (Payload.RestoreData _) => true
      | _ => false
  | .LastTradeIndex =>
    if m.id.isNone ∨ m.request_id.isSome then false
    else m.payload.isNone
  | .Orders =>
    match m.payload with
    | some (Payload.Ids _) => true
    | some (Payload.Orders _) => true
    | _ => false

end MessageKind

/-! ### Signer / verifier (`Message::sign`, `Message::verify_signature`)

The external primitives (SHA-256 from the `bitcoin` crate, Schnorr over
secp256k1 via `nostr_sdk::Keys`) are modelled symbolically: the 256-bit
hash is ideal (represented by the message it digests, i.e. collision-free),
a secret key is a scalar, the corresponding x-only public point is its
image under an injective map, and a Schnorr signature is determined by the
digest and the signer's public point, verifying exactly against both. -/

/-- `Sha256Hash::hash`: ideal digest, represented by the hashed bytes. -/
def sha256Digest (message : Bytes) : Bytes := message

/-- `nostr_sdk::Keys`: a secret-key scalar. -/
structure Keys where
  sk : Nat
  deriving DecidableEq, Repr

/-- The x-only public point of a secret scalar (injective, as scalar
multiplication on the prime-order secp256k1 group is). -/
def pubkeyPoint (sk : Nat) : Nat := sk

/-- `nostr_sdk::PublicKey` as received from the wire: a claimed x-only
point; `valid` records whether its bytes parse as a curve point
(whether `pubkey.xonly()` succeeds). -/
structure PublicKey where
  x : Nat
  valid : Bool
  deriving DecidableEq, Repr

/-- `Keys::public_key`. -/
def Keys.public_key (k : Keys) : PublicKey := ⟨pubkeyPoint k.sk, true⟩

/-- `PublicKey::xonly`: fails on bytes that are not a curve point. -/
def PublicKey.xonly (p : PublicKey) : Option Nat :=
  if p.valid then some p.x else none

/-- A Schnorr signature in the symbolic model. -/
structure Signature where
  digest : Bytes
  point : Nat
  deriving DecidableEq, Repr

/-- `Keys::sign_schnorr` on a digest. -/
def signSchnorr (digest : Bytes) (keys : Keys) : Signature :=
  ⟨digest, pubkeyPoint keys.sk⟩

/-- Schnorr verification of a digest under an x-only point
(`XOnlyPublicKey::verify` in a verification-only `Secp256k1` context);
returns a `Bool`, never fails. -/
def schnorrVerify (x : Nat) (digest : Bytes) (sig : Signature) : Bool :=
  decide (sig = ⟨digest, x⟩)

/-- `Message` in `src/message.rs`. -/
inductive Message where
  | Order (k : MessageKind)
  | Dispute (k : MessageKind)
  | CantDo (k : MessageKind)
  | Rate (k : MessageKind)
  | Dm (k : MessageKind)
  | Restore (k : MessageKind)
  deriving DecidableEq, Repr

namespace Message

/-- `Message::new_order`. -/
def new_order (id : Option Uuid) (request_id : Option Nat) (trade_index : Option Int)
    (action : Action) (payload : Option Payload) : Message :=
  .Order (MessageKind.new id request_id trade_index action payload)

/-- `Message::new_dispute`. -/
def new_dispute (id : Option Uuid) (request_id : Option Nat) (trade_index : Option Int)
    (action : Action) (payload : Option Payload) : Message :=
  .Dispute (MessageKind.new id request_id trade_index action payload)

/-- `Message::new_restore`. -/
def new_restore (payload : Option Payload) : Message :=
  .Restore (MessageKind.new none none none .RestoreSession payload)

/-- `Message::cant_do`. -/
def cant_do (id : Option Uuid) (request_id : Option Nat) (payload : Option Payload) :
    Message :=
  .CantDo (MessageKind.new id request_id none .CantDo payload)

/-- `Message::new_dm`. -/
def new_dm (id : Option Uuid) (request_id : Option Nat) (action : Action)
    (payload : Option Payload) : Message :=
  .Dm (MessageKind.new id request_id none action payload)

/-- `Message::get_inner_message_kind`. -/
def get_inner_message_kind : Message → MessageKind
  | .Order k | .Dispute k | .CantDo k | .Rate k | .Dm k | .Restore k => k

/-- `Message::inner_action`. -/
def inner_action : Message → Option Action
  | .Order k | .Dispute k | .CantDo k | .Rate k | .Dm k | .Restore k =>
    some k.get_action

/-- `Message::verify`. -/
def verify : Message → Bool
  | .Order k | .Dispute k | .CantDo k | .Rate k | .Dm k | .Restore k =>
    k.verify

/-- `Message::sign`. -/
def sign (message : Bytes) (keys : Keys) : Signature :=
  signSchnorr (sha256Digest message) keys

/-- `Message::verify_signature`: total, `false` on a malformed public
key. -/
def verify_signature (message : Bytes) (pubkey : PublicKey) (sig : Signature) : Bool :=
  match pubkey.xonly with
  | some x => schnorrVerify x (sha256Digest message) sig
  | none => false

end Message

/-- The Argon2id key the crypto.rs paths derive for a password and salt
(both `store_encrypted` and `decrypt` go through
`CryptoUtils::derive_key`). -/
def derivedKeyCrypto (pwd salt : Bytes) : Bytes :=
  argon2Hash ⟨DEFAULT_M_COST, DEFAULT_T_COST, DEFAULT_P_COST * 2, DEFAULT_OUTPUT_LEN⟩
    pwd salt

/-- The Argon2id key the order.rs paths derive for a password and salt
(`MIN_T_COST` instead of `DEFAULT_T_COST`). -/
def derivedKeyOrder (pwd salt : Bytes) : Bytes :=
  argon2Hash ⟨DEFAULT_M_COST, MIN_T_COST, DEFAULT_P_COST * 2, DEFAULT_OUTPUT_LEN⟩
    pwd salt

/-- Inserting the 51 distinct keys 0, …, 50 (each with a 32-byte value)
into an empty cache, oldest first. -/
def cacheAfter51 : SimpleCache :=
  (List.range 51).foldl
    (fun c k => SimpleCache.put k (List.replicate 32 (0 : Byte)) c) SimpleCache.new

/-! ## Helper lemmas for the codec round-trip -/

theorem kdfParams_val :
    CryptoUtils.kdfParams
      = some ⟨DEFAULT_M_COST, DEFAULT_T_COST, DEFAULT_P_COST * 2, DEFAULT_OUTPUT_LEN⟩ := by
  decide

theorem derive_key_ok (pwd salt : Bytes) (h4 : 4 ≤ salt.length) (h64 : salt.length ≤ 64) :
    CryptoUtils.derive_key pwd salt = .ok (derivedKeyCrypto pwd salt) := by
  rw [CryptoUtils.derive_key, kdfParams_val]
  show (match hashPassword _ pwd salt with
    | none => _
    | some key => _) = _
  rw [hashPassword, if_pos ⟨h4, h64⟩]
  show (if (argon2Hash _ pwd salt).length ≠ DERIVED_KEY_LENGTH then _ else _) = _
  rw [if_neg (by rw [argon2Hash_length]; decide)]
  rfl

theorem encrypt_ok (data key salt nonce : Bytes) (hk : key.length = DERIVED_KEY_LENGTH)
    (hs : salt.length = SALT_SIZE) :
    CryptoUtils.encrypt data key salt nonce
      = .ok (b64encode (nonce ++ salt ++ chachaEncrypt key nonce data)) := by
  rw [CryptoUtils.encrypt, if_neg (by omega), if_neg (by omega)]

theorem store_encrypted_ok (s pwd salt nonce : Bytes) (hs : salt.length = SALT_SIZE) :
    CryptoUtils.store_encrypted s (some pwd) none salt nonce
      = .ok (b64encode (nonce ++ salt ++ chachaEncrypt (derivedKeyCrypto pwd salt) nonce s)) := by
  rw [CryptoUtils.store_encrypted]
  show (if SALT_SIZE < salt.length then _ else _) = _
  rw [if_neg (by omega)]
  simp only [Option.getD_none]
  rw [derive_key_ok pwd salt (by rw [hs]; decide) (by rw [hs]; decide)]
  show (match CryptoUtils.encrypt s (derivedKeyCrypto pwd salt) salt nonce with
    | .error _ => _ | .ok ct => Except.ok ct) = _
  rw [encrypt_ok s _ salt nonce (by rw [derivedKeyCrypto, argon2Hash_length]; rfl) hs]

theorem splitAt_append (l1 l2 : Bytes) (n : Nat) (h : l1.length = n) :
    splitAt? n (l1 ++ l2) = some (l1, l2) := by
  subst h
  rw [splitAt?, if_pos (by simp)]
  rw [List.take_left, List.drop_left]

theorem decrypt_data_of_blob (s pwd salt nonce : Bytes) (cache : SimpleCache)
    (hutf : utf8Valid s = true) (hsalt : salt.length = SALT_SIZE)
    (hnonce : nonce.length = NONCE_SIZE)
    (hcache : SimpleCache.findVal (make_cache_key pwd salt) cache.map = none
      ∨ SimpleCache.findVal (make_cache_key pwd salt) cache.map
          = some (derivedKeyCrypto pwd salt)) :
    ∃ cache1 : SimpleCache,
      CryptoUtils.decrypt_data
          (b64encode (nonce ++ salt ++ chachaEncrypt (derivedKeyCrypto pwd salt) nonce s))
          (some pwd) cache
        = some (.ok s, cache1) := by
  have hctlen := chachaEncrypt_length (derivedKeyCrypto pwd salt) nonce s
  have hassoc : nonce ++ salt ++ chachaEncrypt (derivedKeyCrypto pwd salt) nonce s
      = nonce ++ (salt ++ chachaEncrypt (derivedKeyCrypto pwd salt) nonce s) :=
    List.append_assoc nonce salt _
  have hlen : ¬ ((nonce ++ (salt ++ chachaEncrypt (derivedKeyCrypto pwd salt) nonce s)).length
      < NONCE_SIZE + SALT_SIZE) := by
    simp only [List.length_append]
    rw [SALT_SIZE] at hsalt
    rw [NONCE_SIZE] at hnonce
    show ¬ (_ < 12 + 16)
    omega
  have hsplit1 : splitAt? NONCE_SIZE
      (nonce ++ (salt ++ chachaEncrypt (derivedKeyCrypto pwd salt) nonce s))
      = some (nonce, salt ++ chachaEncrypt (derivedKeyCrypto pwd salt) nonce s) :=
    splitAt_append _ _ _ hnonce
  have hsplit2 : splitAt? SALT_SIZE
      (salt ++ chachaEncrypt (derivedKeyCrypto pwd salt) nonce s)
      = some (salt, chachaEncrypt (derivedKeyCrypto pwd salt) nonce s) :=
    splitAt_append _ _ _ hsalt
  have hsalt64 : ¬ (64 < salt.length) := by
    rw [SALT_SIZE] at hsalt
    omega
  have hchacha := chacha_roundtrip (derivedKeyCrypto pwd salt) nonce s
  have hderive := derive_key_ok pwd salt
    (by rw [SALT_SIZE] at hsalt; omega) (by rw [SALT_SIZE] at hsalt; omega)
  rcases hcache with hmiss | hhit
  · refine ⟨SimpleCache.put (make_cache_key pwd salt) (derivedKeyCrypto pwd salt) cache, ?_⟩
    have hget : SimpleCache.get (make_cache_key pwd salt) cache = (none, cache) := by
      rw [SimpleCache.get, hmiss]
    simp only [CryptoUtils.decrypt_data, hassoc, b64_roundtrip, if_neg hlen,
      CryptoUtils.decrypt, hsplit1, hsplit2, if_neg hsalt64, hget, hderive,
      hchacha, hutf, if_true]
  · refine ⟨⟨cache.map, SimpleCache.retainNe (make_cache_key pwd salt) cache.order
      ++ [make_cache_key pwd salt]⟩, ?_⟩
    have hget : SimpleCache.get (make_cache_key pwd salt) cache
        = (some (derivedKeyCrypto pwd salt),
           ⟨cache.map, SimpleCache.retainNe (make_cache_key pwd salt) cache.order
             ++ [make_cache_key pwd salt]⟩) := by
      rw [SimpleCache.get, hhit]
    simp only [CryptoUtils.decrypt_data, hassoc, b64_roundtrip, if_neg hlen,
      CryptoUtils.decrypt, hsplit1, hsplit2, if_neg hsalt64, hget,
      hchacha, hutf, if_true]

/-! ## Claim theorems -/

/-- C1: for every plaintext `s` (a Rust `&str`, hence valid UTF-8), every
passphrase `p`, and every run of the salt and nonce generators,
`CryptoUtils::decrypt_data` applied to the output of
`CryptoUtils::store_encrypted` with the same `Some(p)` returns `s`, for
any key-cache state that either lacks the entry for `(p, salt)` or holds
the correctly derived key for it. -/
theorem claim_roundtrip_store_decrypt
    (s pwd salt nonce : Bytes) (cache : SimpleCache)
    (hutf : utf8Valid s = true) (hsalt : salt.length = SALT_SIZE)
    (hnonce : nonce.length = NONCE_SIZE)
    (hcache : SimpleCache.findVal (make_cache_key pwd salt) cache.map = none
      ∨ SimpleCache.findVal (make_cache_key pwd salt) cache.map
          = some (derivedKeyCrypto pwd salt)) :
    ∃ (blob : Bytes) (cache1 : SimpleCache),
      CryptoUtils.store_encrypted s (some pwd) none salt nonce = .ok blob
      ∧ CryptoUtils.decrypt_data blob (some pwd) cache = some (.ok s, cache1) := by
  obtain ⟨cache1, hdec⟩ :=
    decrypt_data_of_blob s pwd salt nonce cache hutf hsalt hnonce hcache
  exact ⟨_, cache1, store_encrypted_ok s pwd salt nonce hsalt, hdec⟩

/-- Witness for C1 at a concrete plaintext, passphrase, salt, nonce and
the empty cache. -/
theorem claim_roundtrip_store_decrypt_witness :
    ∃ (blob : Bytes) (cache1 : SimpleCache),
      CryptoUtils.store_encrypted [104, 105] (some [112]) none
          (List.replicate 16 (0 : Byte)) (List.replicate 12 (0 : Byte)) = .ok blob
      ∧ CryptoUtils.decrypt_data blob (some [112]) SimpleCache.new
          = some (.ok [104, 105], cache1) :=
  claim_roundtrip_store_decrypt [104, 105] [112] (List.replicate 16 (0 : Byte))
    (List.replicate 12 (0 : Byte)) SimpleCache.new (by decide) (by decide) (by decide)
    (Or.inl rfl)

/-- C2: the key-derivation parameter sets are NOT equal across the two
modules: `CryptoUtils::derive_key` (the single KDF of both crypto.rs
paths) fixes time-cost `DEFAULT_T_COST = 2`, while both order.rs paths
(`decrypt_data` and `store_encrypted`) fix `MIN_T_COST = 1`; the derived
keys accordingly differ (shown on a concrete password and salt in the
Argon2 model), so a field encrypted by one module is not decryptable by
the other. -/
theorem claim_kdf_params_mismatch :
    order.decryptParams = order.storeParams
    ∧ CryptoUtils.kdfParams
        = some ⟨DEFAULT_M_COST, DEFAULT_T_COST, DEFAULT_P_COST * 2, DEFAULT_OUTPUT_LEN⟩
    ∧ order.decryptParams
        = some ⟨DEFAULT_M_COST, MIN_T_COST, DEFAULT_P_COST * 2, DEFAULT_OUTPUT_LEN⟩
    ∧ DEFAULT_T_COST = 2
    ∧ MIN_T_COST = 1
    ∧ CryptoUtils.kdfParams ≠ order.decryptParams
    ∧ derivedKeyCrypto [112] (List.replicate 16 (0 : Byte))
        ≠ derivedKeyOrder [112] (List.replicate 16 (0 : Byte)) := by
  refine ⟨rfl, ?_, ?_, rfl, rfl, ?_, ?_⟩ <;> decide

/-- C3: on any input whose base64 decoding is shorter than
`NONCE_SIZE + SALT_SIZE = 28` bytes, `CryptoUtils::decrypt_data`
(crypto.rs) returns the too-short `DecryptionError` without touching the
cache, while `decrypt_data` in order.rs reaches its unguarded `split_at`
calls and panics (modelled by `none`). -/
theorem claim_short_input_behaviour :
    (∀ (data pwd : Bytes) (cache : SimpleCache) (decoded : Bytes),
      b64decode data = some decoded → decoded.length < NONCE_SIZE + SALT_SIZE →
      CryptoUtils.decrypt_data data (some pwd) cache
        = some (.error (.DecryptionError
            "Invalid encrypted data: too short for nonce and salt"), cache))
    ∧ (∀ (data pwd : Bytes) (cache : SimpleCache) (decoded : Bytes),
      b64decode data = some decoded → decoded.length < NONCE_SIZE + SALT_SIZE →
      order.decrypt_data data (some pwd) cache = none) := by
  constructor
  · intro data pwd cache decoded hdec hlen
    simp only [CryptoUtils.decrypt_data, hdec, if_pos hlen]
  · intro data pwd cache decoded hdec hlen
    rw [NONCE_SIZE, SALT_SIZE] at hlen
    by_cases h12 : NONCE_SIZE ≤ decoded.length
    · have hsplit1 : splitAt? NONCE_SIZE decoded
          = some (decoded.take NONCE_SIZE, decoded.drop NONCE_SIZE) := by
        rw [splitAt?, if_pos h12]
      have hsplit2 : splitAt? SALT_SIZE (decoded.drop NONCE_SIZE) = none := by
        rw [splitAt?, if_neg]
        rw [List.length_drop, NONCE_SIZE, SALT_SIZE]
        omega
      simp only [order.decrypt_data, hdec, hsplit1, hsplit2]
    · have hsplit1 : splitAt? NONCE_SIZE decoded = none := by
        rw [splitAt?, if_neg h12]
      simp only [order.decrypt_data, hdec, hsplit1]

/-- Witness for C3 at the empty string (decodes to 0 bytes) with a
passphrase. -/
theorem claim_short_input_behaviour_witness :
    CryptoUtils.decrypt_data [] (some [112]) SimpleCache.new
      = some (.error (.DecryptionError
          "Invalid encrypted data: too short for nonce and salt"), SimpleCache.new)
    ∧ order.decrypt_data [] (some [112]) SimpleCache.new = none :=
  ⟨claim_short_input_behaviour.1 [] [112] SimpleCache.new [] rfl (by decide),
   claim_short_input_behaviour.2 [] [112] SimpleCache.new [] rfl (by decide)⟩

set_option maxRecDepth 100000 in
/-- C4: every `put` and every `get` preserves the cache invariant (at
most 50 entries; the access-order queue holds exactly the keys of the
map, each exactly once); and inserting the 51 distinct keys 0, …, 50 into
an empty cache leaves exactly 50 entries with key 0 (the first inserted)
absent and key 50 (the 51st) present. -/
theorem claim_cache_invariant_and_bound :
    (∀ (c : SimpleCache) (k : CacheKey) (v : Bytes),
      SimpleCache.Inv c → SimpleCache.Inv (SimpleCache.put k v c))
    ∧ (∀ (c : SimpleCache) (k : CacheKey),
      SimpleCache.Inv c → SimpleCache.Inv (SimpleCache.get k c).2)
    ∧ cacheAfter51.map.length = 50
      ∧ SimpleCache.containsKey 0 cacheAfter51.map = false
      ∧ SimpleCache.containsKey 50 cacheAfter51.map = true := by
  refine ⟨fun c k v h => SimpleCache.inv_put k v c h,
    fun c k h => SimpleCache.inv_get k c h, ?_⟩
  decide

/-- Witness for C4: the invariant hypotheses discharged at the empty
cache. -/
theorem claim_cache_invariant_and_bound_witness :
    SimpleCache.Inv (SimpleCache.put 7 (List.replicate 32 (0 : Byte)) SimpleCache.new)
    ∧ SimpleCache.Inv (SimpleCache.get 7 SimpleCache.new).2 :=
  ⟨claim_cache_invariant_and_bound.1 SimpleCache.new 7
      (List.replicate 32 (0 : Byte)) SimpleCache.inv_new,
   claim_cache_invariant_and_bound.2.1 SimpleCache.new 7 SimpleCache.inv_new⟩

/-- C5 counterexample: a rate-user message carrying `RatingUser(6)`
passes `verify()` — `MessageKind::verify` checks only that the payload is
the `RatingUser` variant, not that the value is within
`[MIN_RATING, MAX_RATING]`. -/
theorem claim_rate_user_six_verifies :
    (MessageKind.new (some 1) none none .RateUser
      (some (Payload.RatingUser 6))).verify = true := rfl

/-- C5 amended: for a rate-user message, `verify()` returns true iff the
payload is the `RatingUser` variant, with any value; the range check
against `[MIN_RATING, MAX_RATING]` is enforced not by `verify` but by the
payload accessor `get_rating`, which returns `InvalidRatingValue` for a
value outside the range and the value itself inside it. -/
theorem claim_rate_user_verify_variant_only :
    (∀ m : MessageKind, m.action = .RateUser →
      (m.verify = true ↔ ∃ v : Byte, m.payload = some (Payload.RatingUser v)))
    ∧ (∀ (m : MessageKind) (v : Byte), m.payload = some (Payload.RatingUser v) →
        ¬ (MIN_RATING ≤ v.val ∧ v.val ≤ MAX_RATING) →
        m.get_rating = .error .InvalidRatingValue)
    ∧ (∀ (m : MessageKind) (v : Byte), m.payload = some (Payload.RatingUser v) →
        MIN_RATING ≤ v.val → v.val ≤ MAX_RATING → m.get_rating = .ok v) := by
  refine ⟨?_, ?_, ?_⟩
  · intro m ha
    obtain ⟨ver, rid, ti, id, ac, pl⟩ := m
    simp only at ha
    subst ha
    cases pl with
    | none => simp [MessageKind.verify]
    | some p => cases p <;> simp [MessageKind.verify]
  · intro m v hp hrange
    simp only [MessageKind.get_rating, hp]
    rw [if_pos hrange]
  · intro m v hp hmin hmax
    simp only [MessageKind.get_rating, hp]
    rw [if_neg (not_not_intro ⟨hmin, hmax⟩)]

/-- Witness for C5: the amended statement at `RatingUser(6)` (verifies,
rating unreadable) and `RatingUser(3)` (rating readable). -/
theorem claim_rate_user_verify_variant_only_witness :
    ((MessageKind.new (some 2) none none .RateUser
        (some (Payload.RatingUser 6))).verify = true
      ↔ ∃ v : Byte, (MessageKind.new (some 2) none none .RateUser
          (some (Payload.RatingUser 6))).payload = some (Payload.RatingUser v))
    ∧ (MessageKind.new (some 2) none none .RateUser
        (some (Payload.RatingUser 6))).get_rating = .error .InvalidRatingValue
    ∧ (MessageKind.new (some 2) none none .RateUser
        (some (Payload.RatingUser 3))).get_rating = .ok 3 :=
  ⟨claim_rate_user_verify_variant_only.1 _ rfl,
   claim_rate_user_verify_variant_only.2.1 _ 6 rfl (by decide),
   claim_rate_user_verify_variant_only.2.2 _ 3 rfl (by decide) (by decide)⟩

/-- C6: the four concrete validation cases, each universally in every
other field of the envelope: new-order with no payload fails; restore-
session with an id fails; last-trade-index without an id fails;
last-trade-index with an id, no request id and no payload passes. -/
theorem claim_verify_concrete_cases :
    (∀ m : MessageKind, m.action = .NewOrder → m.payload = none →
      m.verify = false)
    ∧ (∀ (m : MessageKind) (x : Uuid), m.action = .RestoreSession →
        m.id = some x → m.verify = false)
    ∧ (∀ m : MessageKind, m.action = .LastTradeIndex → m.id = none →
        m.verify = false)
    ∧ (∀ (m : MessageKind) (x : Uuid), m.action = .LastTradeIndex →
        m.id = some x → m.request_id = none → m.payload = none →
        m.verify = true) := by
  refine ⟨?_, ?_, ?_, ?_⟩
  · intro m ha hp
    simp [MessageKind.verify, ha, hp]
  · intro m x ha hid
    simp [MessageKind.verify, ha, hid]
  · intro m ha hid
    simp [MessageKind.verify, ha, hid]
  · intro m x ha hid hrid hp
    simp [MessageKind.verify, ha, hid, hrid, hp]

/-- Witness for C6 at concrete envelopes. -/
theorem claim_verify_concrete_cases_witness :
    (MessageKind.new none none none .NewOrder none).verify = false
    ∧ (MessageKind.new (some 1) none none .RestoreSession none).verify = false
    ∧ (MessageKind.new none none none .LastTradeIndex none).verify = false
    ∧ (MessageKind.new (some 1) none (some 7) .LastTradeIndex none).verify = true :=
  ⟨claim_verify_concrete_cases.1 _ rfl rfl,
   claim_verify_concrete_cases.2.1 _ 1 rfl rfl,
   claim_verify_concrete_cases.2.2.1 _ rfl rfl,
   claim_verify_concrete_cases.2.2.2 _ 1 rfl rfl rfl rfl⟩

/-- C7: signing with a keypair verifies under the matching public key;
verification under a different public key, or of different bytes, returns
false; and a malformed public key (one whose `xonly()` conversion fails)
makes `verify_signature` return false rather than fail — the function is
total. -/
theorem claim_signature_roundtrip :
    (∀ (message : Bytes) (keys : Keys),
      Message.verify_signature message keys.public_key
        (Message.sign message keys) = true)
    ∧ (∀ (message : Bytes) (keys : Keys) (p : PublicKey),
        p.x ≠ pubkeyPoint keys.sk →
        Message.verify_signature message p (Message.sign message keys) = false)
    ∧ (∀ (message mutated : Bytes) (keys : Keys) (p : PublicKey),
        mutated ≠ message →
        Message.verify_signature mutated p (Message.sign message keys) = false)
    ∧ (∀ (message : Bytes) (p : PublicKey) (sig : Signature),
        p.valid = false → Message.verify_signature message p sig = false) := by
  refine ⟨?_, ?_, ?_, ?_⟩
  · intro message keys
    simp [Message.verify_signature, Message.sign, Keys.public_key, PublicKey.xonly,
      schnorrVerify, signSchnorr, sha256Digest]
  · intro message keys p hne
    by_cases hv : p.valid
    · simp [Message.verify_signature, PublicKey.xonly, hv, schnorrVerify,
        Message.sign, signSchnorr, sha256Digest, Signature.mk.injEq]
      intro h
      exact absurd h.symm hne
    · simp [Message.verify_signature, PublicKey.xonly, hv]
  · intro message mutated keys p hne
    by_cases hv : p.valid
    · simp [Message.verify_signature, PublicKey.xonly, hv, schnorrVerify,
        Message.sign, signSchnorr, sha256Digest, Signature.mk.injEq]
      intro h
      exact absurd h.symm hne
    · simp [Message.verify_signature, PublicKey.xonly, hv]
  · intro message p sig hv
    simp [Message.verify_signature, PublicKey.xonly, hv]

/-- Witness for C7 at concrete bytes, keys and (in)valid public keys. -/
theorem claim_signature_roundtrip_witness :
    Message.verify_signature [1, 2] (Keys.public_key ⟨5⟩)
        (Message.sign [1, 2] ⟨5⟩) = true
    ∧ Message.verify_signature [1, 2] ⟨7, true⟩ (Message.sign [1, 2] ⟨5⟩) = false
    ∧ Message.verify_signature [1, 3] (Keys.public_key ⟨5⟩)
        (Message.sign [1, 2] ⟨5⟩) = false
    ∧ Message.verify_signature [1, 2] ⟨5, false⟩ ⟨[1, 2], 5⟩ = false :=
  ⟨claim_signature_roundtrip.1 [1, 2] ⟨5⟩,
   claim_signature_roundtrip.2.1 [1, 2] ⟨5⟩ ⟨7, true⟩ (by decide),
   claim_signature_roundtrip.2.2.1 [1, 2] [1, 3] ⟨5⟩ (Keys.public_key ⟨5⟩) (by decide),
   claim_signature_roundtrip.2.2.2 [1, 2] ⟨5, false⟩ ⟨[1, 2], 5⟩ rfl⟩

/-- C8: with no passphrase both directions are the identity and report
success, with the cache untouched — in crypto.rs
(`store_encrypted`, `decrypt_data`) and order.rs alike. -/
theorem claim_pass_through :
    ∀ (s : Bytes) (fixed_salt : Option Bytes) (rnd_salt rnd_nonce : Bytes)
      (cache : SimpleCache),
      CryptoUtils.store_encrypted s none fixed_salt rnd_salt rnd_nonce = .ok s
      ∧ CryptoUtils.decrypt_data s none cache = some (.ok s, cache)
      ∧ order.decrypt_data s none cache = some (.ok s, cache)
      ∧ order.store_encrypted s none rnd_salt rnd_nonce = .ok s :=
  fun _ _ _ _ _ => ⟨rfl, rfl, rfl, rfl⟩

/-- C9: `SimpleCache::zeroize` (run by `Drop::drop`) first overwrites
every stored derived-key value with 32 zero bytes (the `values_mut`
loop), then clears the map and the queue, so the structure afterwards
holds no entries; `drop` is exactly `zeroize`. -/
theorem claim_zeroize_wipes :
    ∀ c : SimpleCache,
      (SimpleCache.zeroizeValues c).map.all
        (fun p => decide (p.2 = List.replicate 32 (0 : Byte))) = true
      ∧ (SimpleCache.zeroize c).map = []
      ∧ (SimpleCache.zeroize c).order = []
      ∧ SimpleCache.drop c = SimpleCache.zeroize c := by
  intro c
  refine ⟨?_, rfl, rfl, rfl⟩
  simp only [SimpleCache.zeroizeValues, List.all_eq_true, List.mem_map]
  rintro p ⟨q, hq, rfl⟩
  simp

/-- C10: `MessageKind::new` always sets `version = PROTOCOL_VER = 1`, for
all arguments; every `Message` built through the public constructors
carries version 1; and `cant_do` and `new_dm` always set `trade_index`
to `None`. -/
theorem claim_constructors_version :
    ∀ (id : Option Uuid) (request_id : Option Nat) (trade_index : Option Int)
      (action : Action) (payload : Option Payload),
      (MessageKind.new id request_id trade_index action payload).version = PROTOCOL_VER
      ∧ PROTOCOL_VER = 1
      ∧ ((Message.new_order id request_id trade_index action
          payload).get_inner_message_kind).version = 1
      ∧ ((Message.new_dispute id request_id trade_index action
          payload).get_inner_message_kind).version = 1
      ∧ ((Message.new_restore payload).get_inner_message_kind).version = 1
      ∧ ((Message.cant_do id request_id payload).get_inner_message_kind).version = 1
      ∧ ((Message.new_dm id request_id action payload).get_inner_message_kind).version = 1
      ∧ ((Message.cant_do id request_id payload).get_inner_message_kind).trade_index = none
      ∧ ((Message.new_dm id request_id action
          payload).get_inner_message_kind).trade_index = none :=
  fun _ _ _ _ _ => ⟨rfl, rfl, rfl, rfl, rfl, rfl, rfl, rfl, rfl⟩
